import Mathlib

/-!
Shallow embedding of the rlox front end and evaluator (src/scanner/mod.rs,
src/parser.rs, src/ast.rs, src/interpreter.rs), with theorems settling the
specification claims about it.

Definitions mirror the source function by function; theorems follow after
all definitions.

Modelling conventions:
* Rust `f64` number payloads are modelled as `ℚ`; every numeric value touched
  by a theorem below is a small integer, where the two domains agree exactly.
  IEEE-specific behaviour (NaN, infinities) is outside this model.
* Rust `HashMap<String, LoxValue>` is modelled as an association list with
  unique keys; `insert` replaces an existing entry in place.
* The `Vec<Environment>` scope stack keeps the innermost scope last and is
  searched in reverse; the Lean list keeps the innermost scope at the head,
  so plain list order is the source's search order.
* Source strings are indexed by byte in Rust; the model indexes `List Char`,
  which coincides on the ASCII inputs the theorems use.
-/

namespace Rlox

/-- TokenType (src/scanner/token_type.rs): the closed token-kind set. -/
inductive TokenType where
  | leftParen | rightParen | leftBrace | rightBrace
  | comma | dot | minus | plus | semicolon | slash | star
  | bang | bangEqual | equal | equalEqual
  | greater | greaterEqual | less | lessEqual
  | identKind
  | stringLit (s : String)
  | numberLit (n : ℚ)
  | andKw | classKw | elseKw | falseKw | funKw | forKw | ifKw | nilKw
  | orKw | printKw | returnKw | superKw | thisKw | trueKw | varKw | whileKw
  | eof
deriving DecidableEq, Repr

/-- Token (src/scanner/token.rs): kind, lexeme and 1-based line. -/
structure Token where
  tokenType : TokenType
  lexeme : String
  line : Nat
deriving DecidableEq, Repr

/-- Expr (src/ast.rs). `Variable` is spelt `varExpr` because `variable` is a
Lean keyword. -/
inductive Expr where
  | binary (left : Expr) (operator : Token) (right : Expr)
  | grouping (expression : Expr)
  | literal (value : Token)
  | unary (operator : Token) (right : Expr)
  | varExpr (name : Token)
  | assignment (varName : Token) (value : Expr)
  | logical (left : Expr) (operator : Token) (right : Expr)
deriving DecidableEq, Repr

/-- Stmt (src/ast.rs). The `While` variant of the source AST is omitted: the
interpreter and parser snapshots under verification neither produce nor
consume it. -/
inductive Stmt where
  | expr (e : Expr)
  | print (e : Expr)
  | varDecl (varName : Token) (initializer : Option Expr)
  | block (stmtList : List Stmt)
  | ifStmt (condition : Expr) (thenStmt : Stmt) (elseStmt : Option Stmt)
deriving BEq, Repr

/-- LoxValue (src/interpreter.rs): the closed runtime value domain. -/
inductive LoxValue where
  | nil
  | bool (b : Bool)
  | number (n : ℚ)
  | string (s : String)
deriving DecidableEq, Repr

/-- RuntimeError (src/interpreter.rs). -/
inductive RuntimeError where
  | invalidBinaryOperand (t : Token)
  | invalidUnaryOperand (t : Token)
  | unexpectedLiteralTokenType (t : Token)
  | undefinedVariable (t : Token)
deriving DecidableEq, Repr

/-- LoxValue::truthiness: only `nil` and `false` are falsy. -/
def LoxValue.truthiness : LoxValue → Bool
  | .nil => false
  | .bool false => false
  | _ => true

/-- Decimal rendering of a number payload; agrees with Rust's `f64` Display
on the integral values that appear in the theorems below. -/
def ratDisplay (q : ℚ) : String :=
  if q.den = 1 then toString q.num else toString q

/-- Display for LoxValue (src/interpreter.rs `impl fmt::Display`). -/
def LoxValue.display : LoxValue → String
  | .nil => "nil"
  | .bool b => toString b
  | .number n => ratDisplay n
  | .string s => s

/-- Environment (src/interpreter.rs): one scope's name-to-value map. -/
abbrev Environment := List (String × LoxValue)

/-- Environment::declare_var: `HashMap::insert`, replacing any existing
binding for the name in this scope, else adding one. -/
def Environment.declareVar (env : Environment) (name : String) (val : LoxValue) :
    Environment :=
  if env.any (fun p => p.1 = name) then
    env.map (fun p => if p.1 = name then (name, val) else p)
  else
    (name, val) :: env

/-- Environment::get_var: lookup in this scope. -/
def Environment.getVar (env : Environment) (name : String) : Option LoxValue :=
  env.lookup name

/-- Environment::set_var: update the binding if the name is present in this
scope, else fail. -/
def Environment.setVar (env : Environment) (name : String) (val : LoxValue) :
    Option (LoxValue × Environment) :=
  if env.any (fun p => p.1 = name) then
    some (val, env.map (fun p => if p.1 = name then (name, val) else p))
  else
    none

/-- EnvironmentList (src/interpreter.rs): the scope chain, innermost scope
first (the source stores it innermost-last and iterates in reverse). -/
abbrev EnvironmentList := List Environment

/-- EnvironmentList::get_var: search the chain innermost scope first. -/
def EnvironmentList.getVar : EnvironmentList → String → Option LoxValue
  | [], _ => none
  | env :: rest, name =>
    match env.getVar name with
    | some v => some v
    | none => EnvironmentList.getVar rest name

/-- EnvironmentList::set_var: mutate the binding in the first (innermost)
scope that contains the name; fail if none does. -/
def EnvironmentList.setVar : EnvironmentList → String → LoxValue →
    Option (LoxValue × EnvironmentList)
  | [], _, _ => none
  | env :: rest, name, val =>
    match env.setVar name val with
    | some (v, env2) => some (v, env2 :: rest)
    | none =>
      match EnvironmentList.setVar rest name val with
      | some (v, rest2) => some (v, env :: rest2)
      | none => none

/-- EnvironmentList::declare_var: bind in the innermost scope. The source
asserts the chain is never empty; the empty case is unreachable under the
interpreter's invariant and returns the chain unchanged. -/
def EnvironmentList.declareVar : EnvironmentList → String → LoxValue →
    EnvironmentList
  | [], _, _ => []
  | env :: rest, name, val => env.declareVar name val :: rest

/-- Interpreter::plus (src/interpreter.rs lines 194-200). The numeric arm
computes `l - r`, exactly as the source does. -/
def Interpreter.plus : LoxValue → LoxValue → Except Unit LoxValue
  | .number l, .number r => .ok (.number (l - r))
  | .string l, .string r => .ok (.string (l ++ r))
  | _, _ => .error ()

/-- Interpreter::minus. -/
def Interpreter.minus : LoxValue → LoxValue → Except Unit LoxValue
  | .number l, .number r => .ok (.number (l - r))
  | _, _ => .error ()

/-- Interpreter::multiply. -/
def Interpreter.multiply : LoxValue → LoxValue → Except Unit LoxValue
  | .number l, .number r => .ok (.number (l * r))
  | _, _ => .error ()

/-- Interpreter::divide. (ℚ division; the source divides `f64`.) -/
def Interpreter.divide : LoxValue → LoxValue → Except Unit LoxValue
  | .number l, .number r => .ok (.number (l / r))
  | _, _ => .error ()

/-- Interpreter::equal: derived structural equality of the value domain. -/
def Interpreter.equal (l r : LoxValue) : LoxValue :=
  .bool (decide (l = r))

/-- Interpreter::not_equal. -/
def Interpreter.notEqual (l r : LoxValue) : LoxValue :=
  .bool (decide (l ≠ r))

/-- Interpreter::greater. -/
def Interpreter.greater : LoxValue → LoxValue → Except Unit LoxValue
  | .number l, .number r => .ok (.bool (decide (l > r)))
  | _, _ => .error ()

/-- Interpreter::greater_equal. -/
def Interpreter.greaterEqual : LoxValue → LoxValue → Except Unit LoxValue
  | .number l, .number r => .ok (.bool (decide (l ≥ r)))
  | _, _ => .error ()

/-- Interpreter::less. -/
def Interpreter.less : LoxValue → LoxValue → Except Unit LoxValue
  | .number l, .number r => .ok (.bool (decide (l < r)))
  | _, _ => .error ()

/-- Interpreter::less_equal. -/
def Interpreter.lessEqual : LoxValue → LoxValue → Except Unit LoxValue
  | .number l, .number r => .ok (.bool (decide (l ≤ r)))
  | _, _ => .error ()

/-- The `map_err` at the end of Interpreter::evaluate_binary: any helper
failure becomes `InvalidBinaryOperand(operator)`. -/
def liftBinary (res : Except Unit LoxValue) (operator : Token) :
    Except RuntimeError LoxValue :=
  match res with
  | .ok v => .ok v
  | .error _ => .error (.invalidBinaryOperand operator)

/-- The operator dispatch of Interpreter::evaluate_binary, applied once both
operands have been evaluated. -/
def evaluateBinaryOp (operator : Token) (l r : LoxValue) :
    Except RuntimeError LoxValue :=
  match operator.tokenType with
  | .plus => liftBinary (Interpreter.plus l r) operator
  | .minus => liftBinary (Interpreter.minus l r) operator
  | .star => liftBinary (Interpreter.multiply l r) operator
  | .slash => liftBinary (Interpreter.divide l r) operator
  | .bangEqual => .ok (Interpreter.notEqual l r)
  | .equalEqual => .ok (Interpreter.equal l r)
  | .greater => liftBinary (Interpreter.greater l r) operator
  | .greaterEqual => liftBinary (Interpreter.greaterEqual l r) operator
  | .less => liftBinary (Interpreter.less l r) operator
  | .lessEqual => liftBinary (Interpreter.lessEqual l r) operator
  | _ => .error (.invalidBinaryOperand operator)

/-- Interpreter::evaluate_literal. -/
def evaluateLiteral (token : Token) : Except RuntimeError LoxValue :=
  match token.tokenType with
  | .nilKw => .ok .nil
  | .trueKw => .ok (.bool true)
  | .falseKw => .ok (.bool false)
  | .numberLit s => .ok (.number s)
  | .stringLit s => .ok (.string s)
  | _ => .error (.unexpectedLiteralTokenType token)

/-- The operator dispatch of Interpreter::evaluate_unary, applied once the
operand has been evaluated. The catch-all arm returns
`InvalidBinaryOperand`, exactly as the source does. -/
def evaluateUnaryOp (operator : Token) (r : LoxValue) :
    Except RuntimeError LoxValue :=
  match operator.tokenType with
  | .bang => .ok (.bool (!r.truthiness))
  | .minus =>
    match r with
    | .number n => .ok (.number (-n))
    | _ => .error (.invalidUnaryOperand operator)
  | _ => .error (.invalidBinaryOperand operator)

/-- Interpreter::evaluate_assignment: EnvironmentList::set_var, with a
failure reported as `UndefinedVariable(var)`; the chain is returned
unchanged on failure. -/
def evaluateAssignment (var : Token) (value : LoxValue)
    (envs : EnvironmentList) :
    Except RuntimeError LoxValue × EnvironmentList :=
  match envs.setVar var.lexeme value with
  | some (v, envs2) => (.ok v, envs2)
  | none => (.error (.undefinedVariable var), envs)

/-- Modelled from the spec: the evaluator case for `Expr::Logical`, which is
declared in src/ast.rs but has no arm in Interpreter::evaluate in any source
snapshot. Following §4.4 of the spec: evaluate the left operand only first;
for `or`, a truthy left value is returned without evaluating the right; for
`and`, a falsy left value is returned without evaluating the right;
otherwise the right operand is evaluated and its value returned. An
operator token that is neither `and` nor `or` (which the parser never
produces) is treated like the evaluator's other catch-all arms. -/
def evaluateLogical (operator : Token)
    (leftRes : Except RuntimeError LoxValue × EnvironmentList)
    (evalRight : EnvironmentList → Except RuntimeError LoxValue × EnvironmentList) :
    Except RuntimeError LoxValue × EnvironmentList :=
  match leftRes with
  | (.error e, envs1) => (.error e, envs1)
  | (.ok l, envs1) =>
    match operator.tokenType with
    | .orKw => if l.truthiness then (.ok l, envs1) else evalRight envs1
    | .andKw => if l.truthiness then evalRight envs1 else (.ok l, envs1)
    | _ => (.error (.invalidBinaryOperand operator), envs1)

/-- Interpreter::evaluate: expression evaluation, threading the scope chain
(which assignment sub-expressions may mutate) and failing fast on the first
runtime error. -/
def evaluate : Expr → EnvironmentList →
    Except RuntimeError LoxValue × EnvironmentList
  | .binary left operator right, envs =>
    match evaluate left envs with
    | (.error e, envs1) => (.error e, envs1)
    | (.ok l, envs1) =>
      match evaluate right envs1 with
      | (.error e, envs2) => (.error e, envs2)
      | (.ok r, envs2) => (evaluateBinaryOp operator l r, envs2)
  | .grouping e, envs => evaluate e envs
  | .literal v, envs => (evaluateLiteral v, envs)
  | .unary operator right, envs =>
    match evaluate right envs with
    | (.error e, envs1) => (.error e, envs1)
    | (.ok r, envs1) => (evaluateUnaryOp operator r, envs1)
  | .varExpr name, envs =>
    match envs.getVar name.lexeme with
    | some v => (.ok v, envs)
    | none => (.error (.undefinedVariable name), envs)
  | .assignment varName value, envs =>
    match evaluate value envs with
    | (.error e, envs1) => (.error e, envs1)
    | (.ok v, envs1) => evaluateAssignment varName v envs1
  | .logical left operator right, envs =>
    evaluateLogical operator (evaluate left envs) (evaluate right)

/-- Interpreter state: the scope chain, the collected runtime errors, and
everything written via `println!` in program order. -/
structure InterpState where
  envs : EnvironmentList
  errors : List RuntimeError
  output : List String
deriving DecidableEq, Repr

/-- Interpreter::new: one (global) scope, no errors, nothing printed. -/
def initState : InterpState := ⟨[[]], [], []⟩

mutual

/-- Interpreter::execute. The `Stmt::Expr` arm prints `expr = <value>`,
exactly as the source's `println!("expr = {val}")` does. A block pushes one
scope, runs its statements collecting their errors, and pops one scope. -/
def execute : Stmt → InterpState → InterpState × Option RuntimeError
  | .expr e, st =>
    match evaluate e st.envs with
    | (.error err, envs1) => ({ st with envs := envs1 }, some err)
    | (.ok v, envs1) =>
      ({ st with envs := envs1,
                 output := st.output ++ ["expr = " ++ v.display] }, none)
  | .print e, st =>
    match evaluate e st.envs with
    | (.error err, envs1) => ({ st with envs := envs1 }, some err)
    | (.ok v, envs1) =>
      ({ st with envs := envs1, output := st.output ++ [v.display] }, none)
  | .varDecl varName initializer, st =>
    match
      (match initializer with
       | some i => evaluate i st.envs
       | none => (.ok .nil, st.envs)) with
    | (.error err, envs1) => ({ st with envs := envs1 }, some err)
    | (.ok v, envs1) =>
      ({ st with envs := envs1.declareVar varName.lexeme v }, none)
  | .block stmtList, st =>
    let st1 := { st with envs := [] :: st.envs }
    let st2 := executeList stmtList st1
    ({ st2 with envs := st2.envs.tail }, none)
  | .ifStmt condition thenStmt elseStmt, st =>
    match evaluate condition st.envs with
    | (.error err, envs1) => ({ st with envs := envs1 }, some err)
    | (.ok v, envs1) =>
      if v.truthiness then execute thenStmt { st with envs := envs1 }
      else
        match elseStmt with
        | some e => execute e { st with envs := envs1 }
        | none => ({ st with envs := envs1 }, none)

/-- The statement loops of Interpreter::interpret and of the `Stmt::Block`
arm: run each statement, appending any error it raises to the collected
list and continuing with the next statement. -/
def executeList : List Stmt → InterpState → InterpState
  | [], st => st
  | s :: rest, st =>
    let res := execute s st
    let st1 :=
      match res.2 with
      | some err => { res.1 with errors := res.1.errors ++ [err] }
      | none => res.1
    executeList rest st1

end

/-- Interpreter::interpret: run the whole program, collecting errors. -/
def interpret (program : List Stmt) (st : InterpState) : InterpState :=
  executeList program st

/-- Scanner state (src/scanner/mod.rs). `diags` collects the
`Lox::error(line, message)` calls, in order. -/
structure ScanState where
  source : List Char
  tokens : List Token
  start : Nat
  current : Nat
  line : Nat
  diags : List (Nat × String)
deriving DecidableEq, Repr

/-- Scanner::peek: the character at `current`, if any. -/
def ScanState.peekChar (s : ScanState) : Option Char :=
  (s.source.drop s.current).head?

/-- Scanner::peek_next. -/
def ScanState.peekNextChar (s : ScanState) : Option Char :=
  (s.source.drop (s.current + 1)).head?

/-- Scanner::match_next_char: consume the next character only if it equals
the expected one. -/
def ScanState.matchNextChar (s : ScanState) (expected : Char) :
    Bool × ScanState :=
  match s.peekChar with
  | some c => if c = expected then (true, { s with current := s.current + 1 })
              else (false, s)
  | none => (false, s)

/-- Scanner::add_token: push a token whose lexeme is `source[start..current]`
at the current line. -/
def ScanState.addToken (s : ScanState) (tokenType : TokenType) : ScanState :=
  let lexeme := String.mk ((s.source.drop s.start).take (s.current - s.start))
  { s with tokens := s.tokens ++ [⟨tokenType, lexeme, s.line⟩] }

theorem peekChar_lt_length {s : ScanState} {c : Char}
    (h : s.peekChar = some c) : s.current < s.source.length := by
  by_contra hle
  have : s.source.drop s.current = [] := List.drop_eq_nil_of_le (by omega)
  simp [ScanState.peekChar, this] at h

/-- Scanner::string: the loop that consumes characters until the closing
quote; each embedded newline bumps the line counter; running out of input
records `Unterminated string.` at the line counter's current value. The
fuel only bounds the recursion; `scanString` below supplies enough for the
whole remaining input, so the 0 case is never reached. -/
def scanStringGo : Nat → ScanState → ScanState
  | 0, s => s
  | fuel + 1, s =>
    match s.peekChar with
    | none => { s with diags := s.diags ++ [(s.line, "Unterminated string.")] }
    | some c =>
      let s1 := { s with current := s.current + 1 }
      if c = '"' then
        let contents :=
          String.mk ((s1.source.drop (s1.start + 1)).take (s1.current - 1 - (s1.start + 1)))
        s1.addToken (.stringLit contents)
      else if c = '\n' then scanStringGo fuel { s1 with line := s1.line + 1 }
      else scanStringGo fuel s1

/-- Scanner::string. -/
def scanString (s : ScanState) : ScanState :=
  scanStringGo (s.source.length - s.current + 1) s

/-- The `while peek().is_ascii_digit() advance()` loops of Scanner::number;
fuelled as in `scanStringGo`. -/
def scanDigitsGo : Nat → ScanState → ScanState
  | 0, s => s
  | fuel + 1, s =>
    match s.peekChar with
    | some c =>
      if c.isDigit then scanDigitsGo fuel { s with current := s.current + 1 }
      else s
    | none => s

/-- The digit-consuming loop, with enough fuel for the remaining input. -/
def scanDigits (s : ScanState) : ScanState :=
  scanDigitsGo (s.source.length - s.current + 1) s

/-- Digit-string value, used to model `str::parse::<f64>` on a number
lexeme. -/
def digitsToNat (cs : List Char) : Nat :=
  cs.foldl (fun acc c => acc * 10 + (c.toNat - '0'.toNat)) 0

/-- The value of a scanned number lexeme (digits optionally followed by `.`
and digits), as `str::parse::<f64>` computes it, over ℚ. -/
def parseRat (cs : List Char) : ℚ :=
  let intPart := cs.takeWhile (fun c => c ≠ '.')
  match cs.dropWhile (fun c => c ≠ '.') with
  | [] => (digitsToNat intPart : ℚ)
  | _ :: frac =>
    (digitsToNat intPart : ℚ) + (digitsToNat frac : ℚ) / ((10 : ℚ) ^ frac.length)

/-- Scanner::number: consume the integer digits, then a fractional part only
when a `.` is followed by a digit, then emit the `Number` token. -/
def scanNumber (s : ScanState) : ScanState :=
  let s1 := scanDigits s
  let s2 :=
    if s1.peekChar = some '.' ∧ (s1.peekNextChar.map Char.isDigit).getD false then
      scanDigits { s1 with current := s1.current + 1 }
    else s1
  let lexeme := (s2.source.drop s2.start).take (s2.current - s2.start)
  s2.addToken (.numberLit (parseRat lexeme))

/-- The keyword table of Scanner::identifier. -/
def keywordLookup (lexeme : String) : TokenType :=
  if lexeme = "and" then .andKw
  else if lexeme = "class" then .classKw
  else if lexeme = "else" then .elseKw
  else if lexeme = "false" then .falseKw
  else if lexeme = "fun" then .funKw
  else if lexeme = "for" then .forKw
  else if lexeme = "if" then .ifKw
  else if lexeme = "nil" then .nilKw
  else if lexeme = "or" then .orKw
  else if lexeme = "print" then .printKw
  else if lexeme = "return" then .returnKw
  else if lexeme = "super" then .superKw
  else if lexeme = "this" then .thisKw
  else if lexeme = "true" then .trueKw
  else if lexeme = "var" then .varKw
  else if lexeme = "while" then .whileKw
  else .identKind

/-- The `while peek().is_ascii_alphanumeric() advance()` loop of
Scanner::identifier; fuelled as in `scanStringGo`. -/
def scanAlphanumericGo : Nat → ScanState → ScanState
  | 0, s => s
  | fuel + 1, s =>
    match s.peekChar with
    | some c =>
      if c.isAlphanum then
        scanAlphanumericGo fuel { s with current := s.current + 1 }
      else s
    | none => s

/-- The alphanumeric-consuming loop, with enough fuel for the input. -/
def scanAlphanumeric (s : ScanState) : ScanState :=
  scanAlphanumericGo (s.source.length - s.current + 1) s

/-- Scanner::identifier: consume the alphanumeric tail, then reclassify the
lexeme through the keyword table. -/
def scanIdentifier (s : ScanState) : ScanState :=
  let s1 := scanAlphanumeric s
  let lexeme := String.mk ((s1.source.drop s1.start).take (s1.current - s1.start))
  s1.addToken (keywordLookup lexeme)

/-- The `//` comment loop: skip to (but not past) the next newline;
fuelled as in `scanStringGo`. -/
def skipCommentGo : Nat → ScanState → ScanState
  | 0, s => s
  | fuel + 1, s =>
    match s.peekChar with
    | some c =>
      if c ≠ '\n' then skipCommentGo fuel { s with current := s.current + 1 }
      else s
    | none => s

/-- The comment-skipping loop, with enough fuel for the input. -/
def skipComment (s : ScanState) : ScanState :=
  skipCommentGo (s.source.length - s.current + 1) s

/-- Scanner::scan_token: consume one character and dispatch on it, exactly
in the source's arm order; `none` models its `Err("End of source")`. The
whitespace arm skips space, carriage return and the letter `t` — the
source's literal `' ' | '\r' | 't'` pattern — so a real tab falls through to
the `Unexpected character.` arm. -/
def scanToken (s : ScanState) : Option ScanState :=
  match s.peekChar with
  | none => none
  | some c =>
    let s0 := { s with current := s.current + 1 }
    some (
      if c = '(' then s0.addToken .leftParen
      else if c = ')' then s0.addToken .rightParen
      else if c = '{' then s0.addToken .leftBrace
      else if c = '}' then s0.addToken .rightBrace
      else if c = ',' then s0.addToken .comma
      else if c = '.' then s0.addToken .dot
      else if c = '-' then s0.addToken .minus
      else if c = '+' then s0.addToken .plus
      else if c = ';' then s0.addToken .semicolon
      else if c = '*' then s0.addToken .star
      else if c = '!' then
        match s0.matchNextChar '=' with
        | (true, s1) => s1.addToken .bangEqual
        | (false, s1) => s1.addToken .bang
      else if c = '=' then
        match s0.matchNextChar '=' with
        | (true, s1) => s1.addToken .equalEqual
        | (false, s1) => s1.addToken .equal
      else if c = '>' then
        match s0.matchNextChar '=' with
        | (true, s1) => s1.addToken .greaterEqual
        | (false, s1) => s1.addToken .greater
      else if c = '<' then
        match s0.matchNextChar '=' with
        | (true, s1) => s1.addToken .lessEqual
        | (false, s1) => s1.addToken .less
      else if c = '/' then
        match s0.matchNextChar '/' with
        | (true, s1) => skipComment s1
        | (false, s1) => s1.addToken .slash
      else if c = ' ' ∨ c = '\r' ∨ c = 't' then s0
      else if c = '\n' then { s0 with line := s0.line + 1 }
      else if c = '"' then scanString s0
      else if c.isDigit then scanNumber s0
      else if c.isAlpha then scanIdentifier s0
      else { s0 with diags := s0.diags ++ [(s0.line, "Unexpected character.")] })

/-- The `while self.scan_token().is_ok() { self.start = self.current }` loop
of Scanner::scan_tokens, fuelled; the fuel in `scan` below is enough for
every source text. -/
def scanLoop : Nat → ScanState → ScanState
  | 0, s => s
  | fuel + 1, s =>
    match scanToken s with
    | some s1 => scanLoop fuel { s1 with start := s1.current }
    | none => s

/-- Scanner::scan_tokens on a fresh scanner (Scanner::new): run the loop,
then append the single `Eof` token at the final line. -/
def scan (sourceText : String) : ScanState :=
  let s0 : ScanState :=
    ⟨sourceText.toList, [], 0, 0, 1, []⟩
  let s1 := scanLoop (sourceText.toList.length + 1) s0
  { s1 with tokens := s1.tokens ++ [⟨.eof, "", s1.line⟩] }

/-- ParserError (src/parser.rs). -/
inductive ParserError where
  | expectExpression (t : Token)
  | expectRightParen (t : Token)
  | expectRightBrace (t : Token)
  | expectSemicolon (t : Token)
  | expectIdentifier (t : Token)
  | invalidAssignmentTarget (t : Token)
deriving DecidableEq, Repr

/-- ParserError::should_panic. -/
def ParserError.shouldPanic : ParserError → Bool
  | .expectExpression _ => true
  | .expectRightParen _ => true
  | .expectSemicolon _ => true
  | .expectIdentifier _ => true
  | _ => false

/-- Parser state (src/parser.rs): the token list, the cursor, and the syntax
diagnostics collected through `Lox::syntax_error`, in order. -/
structure ParseState where
  tokens : List Token
  current : Nat
  diags : List ParserError
deriving DecidableEq, Repr

/-- Stand-in token for the out-of-range accesses on which the source
asserts; unreachable in the runs the theorems describe. -/
def dummyToken : Token := ⟨.eof, "", 0⟩

/-- Parser::previous. -/
def ParseState.previousTok (p : ParseState) : Token :=
  p.tokens.getD (p.current - 1) dummyToken

/-- Parser::current. -/
def ParseState.currentTok (p : ParseState) : Token :=
  p.tokens.getD p.current dummyToken

/-- Parser::peek: `none` at the `Eof` sentinel. -/
def ParseState.peekTok (p : ParseState) : Option Token :=
  match p.tokens[p.current]? with
  | some t => if t.tokenType = .eof then none else some t
  | none => none

/-- The literal-kind-insensitive comparison inside Parser::match_next:
`String`/`Number` payloads are ignored, everything else must be equal. -/
def TokenType.sameKind : TokenType → TokenType → Bool
  | .stringLit _, .stringLit _ => true
  | .numberLit _, .numberLit _ => true
  | t1, t2 => decide (t1 = t2)

/-- Parser::match_next: consume the next token only if its kind matches. -/
def ParseState.matchNext (p : ParseState) (expectedType : TokenType) :
    Bool × ParseState :=
  match p.peekTok with
  | some t =>
    if t.tokenType.sameKind expectedType then
      (true, { p with current := p.current + 1 })
    else (false, p)
  | none => (false, p)

/-- The error Parser::expect_next prepares for each expected kind; the
source panics on any other kind, which no call site reaches. -/
def expectErrFor (expectedType : TokenType) (tok : Token) : ParserError :=
  match expectedType with
  | .rightParen => .expectRightParen tok
  | .rightBrace => .expectRightBrace tok
  | .semicolon => .expectSemicolon tok
  | .identKind => .expectIdentifier tok
  | _ => .expectExpression tok

/-- Parser::expect_next. -/
def ParseState.expectNext (p : ParseState) (expectedType : TokenType) :
    Except ParserError Unit × ParseState :=
  let err := expectErrFor expectedType p.currentTok
  match p.matchNext expectedType with
  | (true, p1) => (.ok (), p1)
  | (false, p1) => (.error err, p1)

/-- Parser::error: record the diagnostic (via Lox::syntax_error). -/
def ParseState.recordError (p : ParseState) (err : ParserError) : ParseState :=
  { p with diags := p.diags ++ [err] }

/-- The statement-start keyword set of Parser::synchronize. -/
def TokenType.startsStatement : TokenType → Bool
  | .classKw => true
  | .funKw => true
  | .varKw => true
  | .forKw => true
  | .ifKw => true
  | .whileKw => true
  | .printKw => true
  | .returnKw => true
  | _ => false

theorem peekTok_lt_length {p : ParseState} {t : Token}
    (h : p.peekTok = some t) : p.current < p.tokens.length := by
  unfold ParseState.peekTok at h
  by_contra hle
  rw [List.getElem?_eq_none (by omega)] at h
  simp at h

/-- The advance loop of Parser::synchronize: stop just after a semicolon,
just before a statement-start keyword, or at end of input. The fuel only
bounds the recursion; `synchronize` supplies enough for the whole
remaining input, and `synchronize_resync` below shows any larger fuel
computes the same state, so the source loop terminates at this state. -/
def synchronizeGo : Nat → ParseState → ParseState
  | 0, p => p
  | fuel + 1, p =>
    match p.peekTok with
    | none => p
    | some t =>
      if p.previousTok.tokenType = .semicolon then p
      else if t.tokenType.startsStatement then p
      else synchronizeGo fuel { p with current := p.current + 1 }

/-- Parser::synchronize: panic-mode recovery; a no-op at `Eof`, otherwise
consume the offending token and advance to a resynchronization point. -/
def synchronize (p : ParseState) : ParseState :=
  if p.currentTok.tokenType = .eof then p
  else synchronizeGo (p.tokens.length - p.current + 1)
    { p with current := p.current + 1 }

mutual

/-- Parser::declaration. -/
def parseDeclaration : Nat → ParseState →
    Option (Except ParserError Stmt × ParseState)
  | 0, _ => none
  | fuel + 1, p =>
    let (m, p1) := p.matchNext .varKw
    if m then parseVarDecl fuel p1 else parseStatement fuel p1

/-- Parser::var_decl. -/
def parseVarDecl : Nat → ParseState →
    Option (Except ParserError Stmt × ParseState)
  | 0, _ => none
  | fuel + 1, p =>
    match p.expectNext .identKind with
    | (.error e, p1) => some (.error e, p1)
    | (.ok _, p1) =>
      let varName := p1.previousTok
      let (m, p2) := p1.matchNext .equal
      if m then
        match parseExpression fuel p2 with
        | none => none
        | some (.error e, p3) => some (.error e, p3)
        | some (.ok init, p3) =>
          match p3.expectNext .semicolon with
          | (.error e, p4) => some (.error e, p4)
          | (.ok _, p4) => some (.ok (.varDecl varName (some init)), p4)
      else
        match p2.expectNext .semicolon with
        | (.error e, p3) => some (.error e, p3)
        | (.ok _, p3) => some (.ok (.varDecl varName none), p3)

/-- Parser::statement. -/
def parseStatement : Nat → ParseState →
    Option (Except ParserError Stmt × ParseState)
  | 0, _ => none
  | fuel + 1, p =>
    let (m, p1) := p.matchNext .printKw
    if m then parsePrintStmt fuel p1
    else
      let (m2, p2) := p1.matchNext .leftBrace
      if m2 then parseBlockStmt fuel p2
      else
        let (m3, p3) := p2.matchNext .ifKw
        if m3 then parseIfStmt fuel p3
        else parseExprStmt fuel p3

/-- Parser::print_stmt. -/
def parsePrintStmt : Nat → ParseState →
    Option (Except ParserError Stmt × ParseState)
  | 0, _ => none
  | fuel + 1, p =>
    match parseExpression fuel p with
    | none => none
    | some (.error e, p1) => some (.error e, p1)
    | some (.ok expr, p1) =>
      match p1.expectNext .semicolon with
      | (.error e, p2) => some (.error e, p2)
      | (.ok _, p2) => some (.ok (.print expr), p2)

/-- Parser::expr_stmt. -/
def parseExprStmt : Nat → ParseState →
    Option (Except ParserError Stmt × ParseState)
  | 0, _ => none
  | fuel + 1, p =>
    match parseExpression fuel p with
    | none => none
    | some (.error e, p1) => some (.error e, p1)
    | some (.ok expr, p1) =>
      match p1.expectNext .semicolon with
      | (.error e, p2) => some (.error e, p2)
      | (.ok _, p2) => some (.ok (.expr expr), p2)

/-- The declaration loop of Parser::block_stmt, collecting statements and
recording the errors of failed declarations (with panic-mode recovery)
until a `}` or end of input is seen. -/
def parseBlockItems : Nat → List Stmt → ParseState →
    Option (List Stmt × ParseState)
  | 0, _, _ => none
  | fuel + 1, acc, p =>
    match p.peekTok with
    | some t =>
      if t.tokenType = .rightBrace then some (acc, p)
      else
        match parseDeclaration fuel p with
        | none => none
        | some (.ok stmt, p1) => parseBlockItems fuel (acc ++ [stmt]) p1
        | some (.error err, p1) =>
          let p2 := if err.shouldPanic then synchronize p1 else p1
          parseBlockItems fuel acc (p2.recordError err)
    | none => some (acc, p)

/-- Parser::block_stmt. -/
def parseBlockStmt : Nat → ParseState →
    Option (Except ParserError Stmt × ParseState)
  | 0, _ => none
  | fuel + 1, p =>
    match parseBlockItems fuel [] p with
    | none => none
    | some (stmtList, p1) =>
      match p1.expectNext .rightBrace with
      | (.error e, p2) => some (.error e, p2)
      | (.ok _, p2) => some (.ok (.block stmtList), p2)

/-- Parser::if_stmt. -/
def parseIfStmt : Nat → ParseState →
    Option (Except ParserError Stmt × ParseState)
  | 0, _ => none
  | fuel + 1, p =>
    match parseExpression fuel p with
    | none => none
    | some (.error e, p1) => some (.error e, p1)
    | some (.ok condition, p1) =>
      match parseStatement fuel p1 with
      | none => none
      | some (.error e, p2) => some (.error e, p2)
      | some (.ok thenStmt, p2) =>
        let (m, p3) := p2.matchNext .elseKw
        if m then
          match parseStatement fuel p3 with
          | none => none
          | some (.error e, p4) => some (.error e, p4)
          | some (.ok elseStmt, p4) =>
            some (.ok (.ifStmt condition thenStmt (some elseStmt)), p4)
        else some (.ok (.ifStmt condition thenStmt none), p3)

/-- Parser::expression. -/
def parseExpression : Nat → ParseState →
    Option (Except ParserError Expr × ParseState)
  | 0, _ => none
  | fuel + 1, p => parseAssignment fuel p

/-- Parser::assignment: right-associative; the target must already have
parsed as a `Variable`, else `InvalidAssignmentTarget` at the `=` token. -/
def parseAssignment : Nat → ParseState →
    Option (Except ParserError Expr × ParseState)
  | 0, _ => none
  | fuel + 1, p =>
    match parseOr fuel p with
    | none => none
    | some (.error e, p1) => some (.error e, p1)
    | some (.ok expr, p1) =>
      let (m, p2) := p1.matchNext .equal
      if m then
        match expr with
        | .varExpr name =>
          match parseAssignment fuel p2 with
          | none => none
          | some (.error e, p3) => some (.error e, p3)
          | some (.ok value, p3) =>
            some (.ok (.assignment name value), p3)
        | _ =>
          let equalsTok := p2.previousTok
          some (.error (.invalidAssignmentTarget equalsTok), p2)
      else some (.ok expr, p2)

/-- Parser::or. -/
def parseOr : Nat → ParseState →
    Option (Except ParserError Expr × ParseState)
  | 0, _ => none
  | fuel + 1, p =>
    match parseAnd fuel p with
    | none => none
    | some (.error e, p1) => some (.error e, p1)
    | some (.ok expr, p1) => parseOrRest fuel expr p1

/-- The `while match_next(Or)` loop of Parser::or. -/
def parseOrRest : Nat → Expr → ParseState →
    Option (Except ParserError Expr × ParseState)
  | 0, _, _ => none
  | fuel + 1, expr, p =>
    let (m, p1) := p.matchNext .orKw
    if m then
      let operator := p1.previousTok
      match parseAnd fuel p1 with
      | none => none
      | some (.error e, p2) => some (.error e, p2)
      | some (.ok right, p2) =>
        parseOrRest fuel (.logical expr operator right) p2
    else some (.ok expr, p1)

/-- Parser::and. -/
def parseAnd : Nat → ParseState →
    Option (Except ParserError Expr × ParseState)
  | 0, _ => none
  | fuel + 1, p =>
    match parseEquality fuel p with
    | none => none
    | some (.error e, p1) => some (.error e, p1)
    | some (.ok expr, p1) => parseAndRest fuel expr p1

/-- The `while match_next(And)` loop of Parser::and. -/
def parseAndRest : Nat → Expr → ParseState →
    Option (Except ParserError Expr × ParseState)
  | 0, _, _ => none
  | fuel + 1, expr, p =>
    let (m, p1) := p.matchNext .andKw
    if m then
      let operator := p1.previousTok
      match parseEquality fuel p1 with
      | none => none
      | some (.error e, p2) => some (.error e, p2)
      | some (.ok right, p2) =>
        parseAndRest fuel (.logical expr operator right) p2
    else some (.ok expr, p1)

/-- Parser::equality. -/
def parseEquality : Nat → ParseState →
    Option (Except ParserError Expr × ParseState)
  | 0, _ => none
  | fuel + 1, p =>
    match parseComparison fuel p with
    | none => none
    | some (.error e, p1) => some (.error e, p1)
    | some (.ok expr, p1) => parseEqualityRest fuel expr p1

/-- The `while match_next(EqualEqual) || match_next(BangEqual)` loop of
Parser::equality. -/
def parseEqualityRest : Nat → Expr → ParseState →
    Option (Except ParserError Expr × ParseState)
  | 0, _, _ => none
  | fuel + 1, expr, p =>
    let (m1, p1) := p.matchNext .equalEqual
    let (m, p2) := if m1 then (true, p1) else p1.matchNext .bangEqual
    if m then
      let operator := p2.previousTok
      match parseComparison fuel p2 with
      | none => none
      | some (.error e, p3) => some (.error e, p3)
      | some (.ok right, p3) =>
        parseEqualityRest fuel (.binary expr operator right) p3
    else some (.ok expr, p2)

/-- Parser::comparison. -/
def parseComparison : Nat → ParseState →
    Option (Except ParserError Expr × ParseState)
  | 0, _ => none
  | fuel + 1, p =>
    match parseTerm fuel p with
    | none => none
    | some (.error e, p1) => some (.error e, p1)
    | some (.ok expr, p1) => parseComparisonRest fuel expr p1

/-- The comparison-operator loop of Parser::comparison. -/
def parseComparisonRest : Nat → Expr → ParseState →
    Option (Except ParserError Expr × ParseState)
  | 0, _, _ => none
  | fuel + 1, expr, p =>
    let (m1, p1) := p.matchNext .greater
    let (m2, p2) := if m1 then (true, p1) else p1.matchNext .greaterEqual
    let (m3, p3) := if m2 then (true, p2) else p2.matchNext .less
    let (m, p4) := if m3 then (true, p3) else p3.matchNext .lessEqual
    if m then
      let operator := p4.previousTok
      match parseTerm fuel p4 with
      | none => none
      | some (.error e, p5) => some (.error e, p5)
      | some (.ok right, p5) =>
        parseComparisonRest fuel (.binary expr operator right) p5
    else some (.ok expr, p4)

/-- Parser::term. -/
def parseTerm : Nat → ParseState →
    Option (Except ParserError Expr × ParseState)
  | 0, _ => none
  | fuel + 1, p =>
    match parseFactor fuel p with
    | none => none
    | some (.error e, p1) => some (.error e, p1)
    | some (.ok expr, p1) => parseTermRest fuel expr p1

/-- The `while match_next(Plus) || match_next(Minus)` loop of Parser::term. -/
def parseTermRest : Nat → Expr → ParseState →
    Option (Except ParserError Expr × ParseState)
  | 0, _, _ => none
  | fuel + 1, expr, p =>
    let (m1, p1) := p.matchNext .plus
    let (m, p2) := if m1 then (true, p1) else p1.matchNext .minus
    if m then
      let operator := p2.previousTok
      match parseFactor fuel p2 with
      | none => none
      | some (.error e, p3) => some (.error e, p3)
      | some (.ok right, p3) =>
        parseTermRest fuel (.binary expr operator right) p3
    else some (.ok expr, p2)

/-- Parser::factor. -/
def parseFactor : Nat → ParseState →
    Option (Except ParserError Expr × ParseState)
  | 0, _ => none
  | fuel + 1, p =>
    match parseUnary fuel p with
    | none => none
    | some (.error e, p1) => some (.error e, p1)
    | some (.ok expr, p1) => parseFactorRest fuel expr p1

/-- The `while match_next(Star) || match_next(Slash)` loop of
Parser::factor. -/
def parseFactorRest : Nat → Expr → ParseState →
    Option (Except ParserError Expr × ParseState)
  | 0, _, _ => none
  | fuel + 1, expr, p =>
    let (m1, p1) := p.matchNext .star
    let (m, p2) := if m1 then (true, p1) else p1.matchNext .slash
    if m then
      let operator := p2.previousTok
      match parseUnary fuel p2 with
      | none => none
      | some (.error e, p3) => some (.error e, p3)
      | some (.ok right, p3) =>
        parseFactorRest fuel (.binary expr operator right) p3
    else some (.ok expr, p2)

/-- Parser::unary. -/
def parseUnary : Nat → ParseState →
    Option (Except ParserError Expr × ParseState)
  | 0, _ => none
  | fuel + 1, p =>
    let (m1, p1) := p.matchNext .bang
    let (m, p2) := if m1 then (true, p1) else p1.matchNext .minus
    if m then
      let operator := p2.previousTok
      match parseUnary fuel p2 with
      | none => none
      | some (.error e, p3) => some (.error e, p3)
      | some (.ok right, p3) => some (.ok (.unary operator right), p3)
    else parsePrimary fuel p2

/-- Parser::primary. -/
def parsePrimary : Nat → ParseState →
    Option (Except ParserError Expr × ParseState)
  | 0, _ => none
  | fuel + 1, p =>
    let (m1, p1) := p.matchNext (.stringLit "")
    let (m2, p2) := if m1 then (true, p1) else p1.matchNext (.numberLit 0)
    let (m3, p3) := if m2 then (true, p2) else p2.matchNext .trueKw
    let (m4, p4) := if m3 then (true, p3) else p3.matchNext .falseKw
    let (m, p5) := if m4 then (true, p4) else p4.matchNext .nilKw
    if m then some (.ok (.literal p5.previousTok), p5)
    else
      let (mi, p6) := p5.matchNext .identKind
      if mi then some (.ok (.varExpr p6.previousTok), p6)
      else
        let (mp, p7) := p6.matchNext .leftParen
        if mp then
          match parseExpression fuel p7 with
          | none => none
          | some (.error e, p8) => some (.error e, p8)
          | some (.ok expr, p8) =>
            match p8.expectNext .rightParen with
            | (.error e, p9) => some (.error e, p9)
            | (.ok _, p9) => some (.ok (.grouping expr), p9)
        else some (.error (.expectExpression p7.currentTok), p7)

end

/-- Parser::parse: the top-level declaration loop with panic-mode
recovery. -/
def parseProgram : Nat → ParseState → Option (List Stmt × ParseState)
  | 0, _ => none
  | fuel + 1, p =>
    match p.peekTok with
    | none => some ([], p)
    | some _ =>
      match parseDeclaration fuel p with
      | none => none
      | some (.ok stmt, p1) =>
        match parseProgram fuel p1 with
        | none => none
        | some (stmts, p2) => some (stmt :: stmts, p2)
      | some (.error err, p1) =>
        let p2 := if err.shouldPanic then synchronize p1 else p1
        parseProgram fuel (p2.recordError err)

/-- A fresh parser over a token list (Parser::new). -/
def initParse (tokens : List Token) : ParseState := ⟨tokens, 0, []⟩

/-! ## Helper lemmas -/

/-- The names bound in one scope, in order. -/
def envKeys (env : Environment) : List String := env.map Prod.fst

/-- The name structure of the whole chain. -/
def chainKeys (envs : EnvironmentList) : List (List String) :=
  envs.map envKeys

theorem Environment.setVar_scopeKeys {env : Environment} {name : String}
    {val v : LoxValue} {env2 : Environment}
    (h : env.setVar name val = some (v, env2)) :
    envKeys env2 = envKeys env ∧ v = val := by
  unfold Environment.setVar at h
  split at h
  · simp only [Option.some.injEq, Prod.mk.injEq] at h
    obtain ⟨hv, henv⟩ := h
    refine ⟨?_, hv.symm⟩
    subst henv
    unfold envKeys
    rw [List.map_map]
    refine List.map_congr_left (fun p _ => ?_)
    by_cases hp : p.1 = name <;> simp [hp]
  · exact absurd h (by simp)

theorem EnvironmentList.setVar_keys {envs : EnvironmentList} {name : String}
    {val v : LoxValue} {envs2 : EnvironmentList}
    (h : envs.setVar name val = some (v, envs2)) :
    chainKeys envs2 = chainKeys envs := by
  induction envs generalizing v envs2 with
  | nil => simp [EnvironmentList.setVar] at h
  | cons env rest ih =>
    unfold EnvironmentList.setVar at h
    cases henv : env.setVar name val with
    | some pr =>
      obtain ⟨v1, env2⟩ := pr
      rw [henv] at h
      simp only [Option.some.injEq, Prod.mk.injEq] at h
      obtain ⟨-, h2⟩ := h
      subst h2
      have hk := (Environment.setVar_scopeKeys henv).1
      simp only [chainKeys, List.map_cons, hk]
    | none =>
      rw [henv] at h
      cases hrest : EnvironmentList.setVar rest name val with
      | some pr =>
        obtain ⟨v1, rest2⟩ := pr
        rw [hrest] at h
        simp only [Option.some.injEq, Prod.mk.injEq] at h
        obtain ⟨-, h2⟩ := h
        subst h2
        have hk := ih hrest
        simp only [chainKeys, List.map_cons] at hk ⊢
        rw [hk]
      | none => rw [hrest] at h; exact absurd h (by simp)

theorem evaluateAssignment_chainKeys {var : Token} {value : LoxValue}
    (envs : EnvironmentList) :
    chainKeys (evaluateAssignment var value envs).2 = chainKeys envs := by
  unfold evaluateAssignment
  cases h : envs.setVar var.lexeme value with
  | some pr => obtain ⟨v, envs2⟩ := pr; simpa using EnvironmentList.setVar_keys h
  | none => simp

/-- Expression evaluation never creates or removes a binding anywhere in
the chain: the name structure of every scope is preserved, on success and
on error alike. -/
theorem evaluate_chainKeys (e : Expr) (envs : EnvironmentList) :
    chainKeys (evaluate e envs).2 = chainKeys envs := by
  induction e generalizing envs with
  | binary left operator right ihl ihr =>
    simp only [evaluate]
    cases hl : evaluate left envs with
    | mk resl envs1 =>
      have h1 : chainKeys envs1 = chainKeys envs := by
        have := ihl envs; rw [hl] at this; exact this
      try simp only [hl]
      cases resl with
      | error e => simpa using h1
      | ok l =>
        cases hr : evaluate right envs1 with
        | mk resr envs2 =>
          have h2 : chainKeys envs2 = chainKeys envs1 := by
            have := ihr envs1; rw [hr] at this; exact this
          try simp only [hr]
          cases resr <;> simpa using h2.trans h1
  | grouping inner ih => simpa [evaluate] using ih envs
  | literal v => simp [evaluate]
  | unary operator right ih =>
    simp only [evaluate]
    cases hr : evaluate right envs with
    | mk res envs1 =>
      have h1 : chainKeys envs1 = chainKeys envs := by
        have := ih envs; rw [hr] at this; exact this
      try simp only [hr]
      cases res <;> simpa using h1
  | varExpr name =>
    simp only [evaluate]
    cases envs.getVar name.lexeme <;> simp
  | assignment varName value ih =>
    simp only [evaluate]
    cases hv : evaluate value envs with
    | mk res envs1 =>
      have h1 : chainKeys envs1 = chainKeys envs := by
        have := ih envs; rw [hv] at this; exact this
      try simp only [hv]
      cases res with
      | error e => simpa using h1
      | ok v =>
        simp only []
        rw [evaluateAssignment_chainKeys envs1]
        exact h1
  | logical left operator right ihl ihr =>
    simp only [evaluate]
    cases hl : evaluate left envs with
    | mk resl envs1 =>
      have h1 : chainKeys envs1 = chainKeys envs := by
        have := ihl envs; rw [hl] at this; exact this
      have h2 : chainKeys (evaluate right envs1).2 = chainKeys envs :=
        (ihr envs1).trans h1
      try simp only [hl]
      simp only [evaluateLogical]
      cases resl with
      | error e => simpa using h1
      | ok l =>
        cases opk : operator.tokenType <;> simp only []
        all_goals try simpa using h1
        · split
          · exact h2
          · simpa using h1
        · split
          · simpa using h1
          · exact h2

/-- The scope count is determined by the name structure. -/
theorem evaluate_envs_length (e : Expr) (envs : EnvironmentList) :
    ((evaluate e envs).2).length = envs.length := by
  have h := evaluate_chainKeys e envs
  have := congrArg List.length h
  simpa [chainKeys] using this

theorem EnvironmentList.declareVar_length (envs : EnvironmentList)
    (name : String) (val : LoxValue) :
    (envs.declareVar name val).length = envs.length := by
  cases envs <;> simp [EnvironmentList.declareVar]

mutual

theorem execute_envs_length (s : Stmt) (st : InterpState) :
    ((execute s st).1).envs.length = st.envs.length := by
  cases s with
  | expr e =>
    simp only [execute]
    cases h : evaluate e st.envs with
    | mk res envs1 =>
      have h1 : envs1.length = st.envs.length := by
        have := evaluate_envs_length e st.envs; rw [h] at this; exact this
      try simp only [h]
      cases res <;> simpa using h1
  | print e =>
    simp only [execute]
    cases h : evaluate e st.envs with
    | mk res envs1 =>
      have h1 : envs1.length = st.envs.length := by
        have := evaluate_envs_length e st.envs; rw [h] at this; exact this
      try simp only [h]
      cases res <;> simpa using h1
  | varDecl varName initializer =>
    simp only [execute]
    cases initializer with
    | none => simp [EnvironmentList.declareVar_length]
    | some i =>
      cases h : evaluate i st.envs with
      | mk res envs1 =>
        have h1 : envs1.length = st.envs.length := by
          have := evaluate_envs_length i st.envs; rw [h] at this; exact this
        try simp only [h]
        cases res with
        | error err => simpa using h1
        | ok v => simpa [EnvironmentList.declareVar_length] using h1
  | block stmtList =>
    simp only [execute]
    have h := executeList_envs_length stmtList { st with envs := [] :: st.envs }
    simp only [List.length_tail, h]
    simp
  | ifStmt condition thenStmt elseStmt =>
    simp only [execute]
    cases h : evaluate condition st.envs with
    | mk res envs1 =>
      have h1 : envs1.length = st.envs.length := by
        have := evaluate_envs_length condition st.envs; rw [h] at this
        exact this
      try simp only [h]
      cases res with
      | error err => simpa using h1
      | ok v =>
        simp only []
        split
        · rw [execute_envs_length thenStmt { st with envs := envs1 }]
          exact h1
        · cases elseStmt with
          | some e =>
            simp only []
            rw [execute_envs_length e { st with envs := envs1 }]
            exact h1
          | none => simpa using h1

theorem executeList_envs_length (l : List Stmt) (st : InterpState) :
    ((executeList l st).envs).length = st.envs.length := by
  cases l with
  | nil => rfl
  | cons s rest =>
    simp only [executeList]
    cases hres : execute s st with
    | mk st1 oerr =>
      have h1 : st1.envs.length = st.envs.length := by
        have := execute_envs_length s st; rw [hres] at this; exact this
      try simp only [hres]
      cases oerr with
      | none => rw [executeList_envs_length rest st1]; exact h1
      | some err =>
        rw [executeList_envs_length rest
          { st1 with errors := st1.errors ++ [err] }]
        exact h1

end

/-- Variant discriminator of the value domain. -/
def LoxValue.variantTag : LoxValue → Nat
  | .nil => 0
  | .bool _ => 1
  | .number _ => 2
  | .string _ => 3

/-- Whether a scope already binds a name (the `contains_key` test of
Environment::set_var). -/
def Environment.containsName (env : Environment) (name : String) : Bool :=
  env.any (fun p => p.1 = name)

theorem Environment.setVar_scope_of_not_contains {env : Environment} {name : String}
    (val : LoxValue) (h : env.containsName name = false) :
    env.setVar name val = none := by
  unfold Environment.containsName at h
  simp [Environment.setVar, h]

theorem Environment.setVar_of_contains {env : Environment} {name : String}
    (val : LoxValue) (h : env.containsName name = true) :
    env.setVar name val
      = some (val, env.map (fun p => if p.1 = name then (name, val) else p)) := by
  unfold Environment.containsName at h
  simp [Environment.setVar, h]

theorem EnvironmentList.setVar_of_not_contains {envs : EnvironmentList}
    {name : String} (val : LoxValue)
    (h : ∀ env ∈ envs, env.containsName name = false) :
    envs.setVar name val = none := by
  induction envs with
  | nil => rfl
  | cons env rest ih =>
    have h1 := h env (by simp)
    have h2 := ih (fun e he => h e (by simp [he]))
    simp [EnvironmentList.setVar, Environment.setVar_scope_of_not_contains val h1, h2]

theorem EnvironmentList.setVar_first_containing (pre post : EnvironmentList)
    (scope : Environment) {name : String} (val : LoxValue)
    (hpre : ∀ env ∈ pre, env.containsName name = false)
    (hscope : scope.containsName name = true) :
    (pre ++ scope :: post).setVar name val
      = some (val,
          pre ++ (scope.map (fun p => if p.1 = name then (name, val) else p))
            :: post) := by
  induction pre with
  | nil =>
    simp only [List.nil_append, EnvironmentList.setVar,
      Environment.setVar_of_contains val hscope]
  | cons env rest ih =>
    have h1 := hpre env (by simp)
    have h2 := ih (fun e he => hpre e (by simp [he]))
    simp [List.cons_append, EnvironmentList.setVar,
      Environment.setVar_scope_of_not_contains val h1, h2]


theorem scanStringGo_no_quote (fuel : Nat) :
    ∀ s : ScanState, s.source.length - s.current < fuel →
    s.current ≤ s.source.length →
    (∀ c ∈ s.source.drop s.current, c ≠ '"') →
    scanStringGo fuel s =
      { s with current := s.source.length,
               line := s.line + (s.source.drop s.current).count '\n',
               diags := s.diags ++
                 [(s.line + (s.source.drop s.current).count '\n',
                   "Unterminated string.")] } := by
  induction fuel with
  | zero => intro s h _ _; omega
  | succ n ih =>
    intro s hfuel hle hq
    obtain ⟨src, tks, stt, cur, ln, dg⟩ := s
    simp only at hfuel hle hq
    simp only [scanStringGo, ScanState.peekChar]
    cases hc : (src.drop cur).head? with
    | none =>
      have hdrop : src.drop cur = [] := List.head?_eq_none_iff.mp hc
      have hcur : cur = src.length := by
        have := List.drop_eq_nil_iff.mp hdrop
        omega
      simp [hdrop, hcur]
    | some c =>
      have hlt : cur < src.length := by
        by_contra hcon
        rw [List.drop_eq_nil_of_le (by omega)] at hc
        simp at hc
      have hccons : src.drop cur = c :: src.drop (cur + 1) := by
        rw [List.drop_eq_getElem_cons hlt] at hc ⊢
        simp only [List.head?_cons, Option.some.injEq] at hc
        rw [hc]
      have hcq : c ≠ '"' := hq c (by rw [hccons]; exact List.mem_cons_self _ _)
      have hqtail : ∀ c2 ∈ src.drop (cur + 1), c2 ≠ '"' :=
        fun c2 h2 => hq c2 (by rw [hccons]; exact List.mem_cons_of_mem _ h2)
      by_cases hnl : c = '\n'
      · subst hnl
        have ihres := ih ⟨src, tks, stt, cur + 1, ln + 1, dg⟩
          (by simp only []; omega) (by simp only []; omega) hqtail
        simp only [hcq, if_false, if_pos rfl, reduceIte] at ihres ⊢
        rw [ihres]
        simp [hccons, List.count_cons]
        omega
      · have ihres := ih ⟨src, tks, stt, cur + 1, ln, dg⟩
          (by simp only []; omega) (by simp only []; omega) hqtail
        simp only [hcq, hnl, if_false, reduceIte] at ihres ⊢
        rw [ihres]
        simp [hccons, List.count_cons, hnl]

theorem synchronizeGo_spec (fuel : Nat) :
    ∀ p : ParseState, p.tokens.length - p.current < fuel →
    (synchronizeGo fuel p).tokens = p.tokens
    ∧ (synchronizeGo fuel p).diags = p.diags
    ∧ p.current ≤ (synchronizeGo fuel p).current
    ∧ (synchronizeGo fuel p).current ≤ max p.current p.tokens.length
    ∧ ∀ fuel2, p.tokens.length - p.current < fuel2 →
        synchronizeGo fuel2 p = synchronizeGo fuel p := by
  induction fuel with
  | zero => intro p h; omega
  | succ n ih =>
    intro p hfuel
    have hunfold : ∀ m, synchronizeGo (m + 1) p =
        match p.peekTok with
        | none => p
        | some t =>
          if p.previousTok.tokenType = .semicolon then p
          else if t.tokenType.startsStatement then p
          else synchronizeGo m { p with current := p.current + 1 } :=
      fun m => rfl
    cases hpk : p.peekTok with
    | none =>
      have hstop : ∀ m, synchronizeGo (m + 1) p = p := by
        intro m; rw [hunfold m, hpk]
      refine ⟨by rw [hstop], by rw [hstop], by rw [hstop], by rw [hstop]; omega,
        fun fuel2 h2 => ?_⟩
      cases fuel2 with
      | zero => omega
      | succ m => rw [hstop, hstop]
    | some t =>
      have hlt : p.current < p.tokens.length := peekTok_lt_length hpk
      by_cases hsemi : p.previousTok.tokenType = .semicolon
      · have hstop : ∀ m, synchronizeGo (m + 1) p = p := by
          intro m; rw [hunfold m, hpk]; simp [hsemi]
        refine ⟨by rw [hstop], by rw [hstop], by rw [hstop],
          by rw [hstop]; omega, fun fuel2 h2 => ?_⟩
        cases fuel2 with
        | zero => omega
        | succ m => rw [hstop, hstop]
      · by_cases hkw : t.tokenType.startsStatement
        · have hstop : ∀ m, synchronizeGo (m + 1) p = p := by
            intro m; rw [hunfold m, hpk]; simp [hsemi, hkw]
          refine ⟨by rw [hstop], by rw [hstop], by rw [hstop],
            by rw [hstop]; omega, fun fuel2 h2 => ?_⟩
          cases fuel2 with
          | zero => omega
          | succ m => rw [hstop, hstop]
        · have hstep : ∀ m, synchronizeGo (m + 1) p =
              synchronizeGo m { p with current := p.current + 1 } := by
            intro m; rw [hunfold m, hpk]; simp [hsemi, hkw]
          have hrem : ({ p with current := p.current + 1 } :
              ParseState).tokens.length -
              ({ p with current := p.current + 1 } : ParseState).current < n := by
            simp only []
            omega
          obtain ⟨h1, h2, h3, h4, h5⟩ := ih { p with current := p.current + 1 } hrem
          refine ⟨by rw [hstep]; exact h1, by rw [hstep]; exact h2,
            by rw [hstep]; simp only [] at h3; omega,
            by rw [hstep]; simp only [] at h4; omega,
            fun fuel2 hf2 => ?_⟩
          cases fuel2 with
          | zero => omega
          | succ m =>
            rw [hstep m, hstep n]
            exact h5 m (by simp only []; omega)

/-! ## Claim theorems -/

/-- C1: the claim states that `+` on two Numbers yields their numeric sum;
the code's `Interpreter::plus` computes `l - r` on the Number/Number arm, so
`1 + 2` evaluates to `Number(-1)`, not `Number(3)`. The String/String arm
(concatenation) and the mismatched-variant arm (`TypeMismatchBinary`, i.e.
`InvalidBinaryOperand`) behave as claimed. -/
theorem plus_of_numbers_computes_subtraction :
    evaluate (.binary (.literal ⟨.numberLit 1, "1", 1⟩) ⟨.plus, "+", 1⟩
        (.literal ⟨.numberLit 2, "2", 1⟩)) [[]]
      = (.ok (.number (1 - 2)), [[]])
    ∧ (1 - 2 : ℚ) = -1
    ∧ LoxValue.number (1 - 2) ≠ LoxValue.number (1 + 2)
    ∧ evaluate (.binary (.literal ⟨.stringLit "foo", "\"foo\"", 1⟩)
        ⟨.plus, "+", 1⟩ (.literal ⟨.stringLit "bar", "\"bar\"", 1⟩)) [[]]
      = (.ok (.string "foobar"), [[]])
    ∧ evaluate (.binary (.literal ⟨.numberLit 1, "1", 1⟩) ⟨.plus, "+", 1⟩
        (.literal ⟨.stringLit "1", "\"1\"", 1⟩)) [[]]
      = (.error (.invalidBinaryOperand ⟨.plus, "+", 1⟩), [[]]) := by
  refine ⟨rfl, by norm_num, ?_, rfl, rfl⟩
  intro h
  have := LoxValue.number.inj h
  norm_num at this

/-- C3: the scope chain created at interpreter start always keeps at least
one scope, and executing any statement leaves the scope count exactly as it
was — a block statement's push is matched by exactly one pop on every exit
path (the pop is unconditional after the inner statement loop, which
collects inner errors instead of propagating them). -/
theorem scope_count_invariant :
    (∀ (s : Stmt) (st : InterpState),
        ((execute s st).1).envs.length = st.envs.length)
    ∧ (∀ (stmtList : List Stmt) (st : InterpState),
        (execute (.block stmtList) st).1.envs
          = (executeList stmtList { st with envs := [] :: st.envs }).envs.tail)
    ∧ (∀ program : List Stmt,
        1 ≤ (interpret program initState).envs.length) := by
  refine ⟨execute_envs_length, fun stmtList st => rfl, fun program => ?_⟩
  have h := executeList_envs_length program initState
  simp only [interpret]
  rw [h]
  simp [initState]

/-- C4: the claim states an ExpressionStmt writes nothing to the output
sink; the code's `Stmt::Expr` arm prints `expr = <value>`, so the program
`1;` writes one line. The second conjunct shows the claimed `print`
behaviour (one line per print statement, in program order) does hold. -/
theorem expression_stmt_writes_to_output :
    (interpret [.expr (.literal ⟨.numberLit 1, "1", 1⟩)] initState).output
      = ["expr = 1"]
    ∧ (interpret [.print (.literal ⟨.stringLit "hi", "\"hi\"", 1⟩),
                  .print (.literal ⟨.stringLit "yo", "\"yo\"", 1⟩)]
        initState).output
      = ["hi", "yo"] := by
  exact ⟨rfl, rfl⟩

/-- C8: the claim states a tab is whitespace (no token, no diagnostic); the
scanner's whitespace arm is `' ' | '\r' | 't'` — the letter `t`, not `'\t'`
— so a tab falls through to the `Unexpected character.` diagnostic, while
the letter `t` is silently skipped (scanning `true` yields the identifier
`rue`). Space, carriage return and newline are handled as claimed. -/
theorem tab_is_not_treated_as_whitespace :
    (scan "\t").diags = [(1, "Unexpected character.")]
    ∧ (scan "\t").tokens = [⟨.eof, "", 1⟩]
    ∧ (scan " \r\n").diags = [] ∧ (scan " \r\n").tokens = [⟨.eof, "", 2⟩]
    ∧ (scan "true").tokens = [⟨.identKind, "rue", 1⟩, ⟨.eof, "", 1⟩]
    ∧ (scan "true").diags = [] := by
  refine ⟨rfl, rfl, rfl, rfl, rfl, rfl⟩

/-- C7 counterexample: the claim states the UnterminatedString diagnostic is
anchored at the line the string started. Scanning `"ab\ncd` — a string
starting on line 1 whose input ends on line 2 — records the diagnostic at
line 2, the line where input ended, not line 1. -/
theorem unterminated_string_start_line_counterexample :
    (scan "\"ab\ncd").diags = [(2, "Unterminated string.")]
    ∧ (2 : Nat) ≠ 1 := by
  exact ⟨rfl, by decide⟩


/-- C2 (spec-modelled `Logical` evaluation): short-circuiting — the left
operand is evaluated first; a truthy left under `or`, or a falsy left under
`and`, is returned as is, the right operand never being evaluated (the
result is the same for every right operand `r`); otherwise the right
operand is evaluated and its value returned. The last conjunct: evaluating
`false and undeclared` yields `Bool(false)` with no `UndefinedVariable`
error, even though the right operand names an undeclared variable. -/
theorem logical_short_circuits (l r : Expr) (t : Token)
    (envs envs1 : EnvironmentList) (v : LoxValue)
    (hl : evaluate l envs = (.ok v, envs1)) :
    ((t.tokenType = .orKw ∧ v.truthiness = true) ∨
        (t.tokenType = .andKw ∧ v.truthiness = false) →
      evaluate (.logical l t r) envs = (.ok v, envs1))
    ∧ ((t.tokenType = .orKw ∧ v.truthiness = false) ∨
        (t.tokenType = .andKw ∧ v.truthiness = true) →
      evaluate (.logical l t r) envs = evaluate r envs1)
    ∧ evaluate (.logical (.literal ⟨.falseKw, "false", 1⟩)
        ⟨.andKw, "and", 1⟩ (.varExpr ⟨.identKind, "undeclared", 1⟩)) [[]]
      = (.ok (.bool false), [[]]) := by
  refine ⟨?_, ?_, rfl⟩
  · rintro (⟨htok, htr⟩ | ⟨htok, htr⟩) <;>
      simp [evaluate, hl, evaluateLogical, htok, htr]
  · rintro (⟨htok, htr⟩ | ⟨htok, htr⟩) <;>
      simp [evaluate, hl, evaluateLogical, htok, htr]

/-- Witness for C2 at a concrete input: `false and undeclared` returns the
left value `Bool(false)` untouched. -/
theorem logical_short_circuits_witness :
    evaluate (.logical (.literal ⟨.falseKw, "false", 1⟩) ⟨.andKw, "and", 1⟩
        (.varExpr ⟨.identKind, "undeclared", 1⟩)) [[]]
      = (.ok (.bool false), [[]]) :=
  (logical_short_circuits (.literal ⟨.falseKw, "false", 1⟩)
    (.varExpr ⟨.identKind, "undeclared", 1⟩) ⟨.andKw, "and", 1⟩
    [[]] [[]] (.bool false) rfl).1 (Or.inr ⟨rfl, rfl⟩)

/-- C9: `==` and `!=` never produce a runtime error on any pair of runtime
values — they return the (negated) structural equality of the value domain;
values with different variant tags are never equal; concretely `1 == "1"`
evaluates to `Bool(false)` with no diagnostic. -/
theorem equality_never_errors (t : Token) (l r : LoxValue) :
    (t.tokenType = .equalEqual →
      evaluateBinaryOp t l r = .ok (.bool (decide (l = r))))
    ∧ (t.tokenType = .bangEqual →
      evaluateBinaryOp t l r = .ok (.bool (decide (l ≠ r))))
    ∧ (l.variantTag ≠ r.variantTag → decide (l = r) = false)
    ∧ evaluate (.binary (.literal ⟨.numberLit 1, "1", 1⟩)
        ⟨.equalEqual, "==", 1⟩ (.literal ⟨.stringLit "1", "\"1\"", 1⟩)) [[]]
      = (.ok (.bool false), [[]]) := by
  refine ⟨fun htok => ?_, fun htok => ?_, fun htag => ?_, rfl⟩
  · simp [evaluateBinaryOp, Interpreter.equal, htok]
  · simp [evaluateBinaryOp, Interpreter.notEqual, htok]
  · cases l <;> cases r <;> simp_all [LoxValue.variantTag]

/-- Witness for C9 at a concrete input: `Number(1) == String("1")` is
`Bool(false)` and no error is raised. -/
theorem equality_never_errors_witness :
    evaluateBinaryOp ⟨.equalEqual, "==", 1⟩ (.number 1) (.string "1")
      = .ok (.bool false) :=
  ((equality_never_errors ⟨.equalEqual, "==", 1⟩ (.number 1)
      (.string "1")).1 rfl).trans rfl

/-- C6: evaluating an assignment (with its value already computed, as in
Interpreter::evaluate_assignment) searches the chain innermost scope first
and mutates the binding in the first scope containing the name, leaving
every scope's key structure unchanged; when no scope contains the name it
returns `UndefinedVariable` and the whole chain unchanged — assignment
never creates a binding. -/
theorem assignment_mutates_first_scope_or_errors (var : Token)
    (value : LoxValue) :
    (∀ envs : EnvironmentList,
      (∀ env ∈ envs, env.containsName var.lexeme = false) →
      evaluateAssignment var value envs
        = (.error (.undefinedVariable var), envs))
    ∧ (∀ pre post : EnvironmentList, ∀ scope : Environment,
      (∀ env ∈ pre, env.containsName var.lexeme = false) →
      scope.containsName var.lexeme = true →
      evaluateAssignment var value (pre ++ scope :: post)
        = (.ok value,
           pre ++ (scope.map (fun p =>
             if p.1 = var.lexeme then (var.lexeme, value) else p)) :: post))
    ∧ (∀ envs : EnvironmentList,
        chainKeys (evaluateAssignment var value envs).2 = chainKeys envs) := by
  refine ⟨fun envs h => ?_, fun pre post scope hpre hscope => ?_,
    evaluateAssignment_chainKeys⟩
  · simp [evaluateAssignment, EnvironmentList.setVar_of_not_contains value h]
  · simp [evaluateAssignment,
      EnvironmentList.setVar_first_containing pre post scope value hpre hscope]

/-- Witness for C6 at concrete inputs: assigning to `y` in a chain binding
only `x` errors and leaves the chain unchanged; assigning to `x` bound in
the outer scope of a two-scope chain mutates that scope. -/
theorem assignment_mutates_first_scope_or_errors_witness :
    evaluateAssignment ⟨.identKind, "y", 1⟩ (.number 1) [[("x", .nil)]]
      = (.error (.undefinedVariable ⟨.identKind, "y", 1⟩), [[("x", .nil)]])
    ∧ evaluateAssignment ⟨.identKind, "x", 1⟩ (.bool true)
        [[], [("x", .nil)]]
      = (.ok (.bool true), [[], [("x", .bool true)]]) := by
  constructor
  · exact (assignment_mutates_first_scope_or_errors ⟨.identKind, "y", 1⟩
      (.number 1)).1 [[("x", .nil)]] (by decide)
  · exact (assignment_mutates_first_scope_or_errors ⟨.identKind, "x", 1⟩
      (.bool true)).2.1 [[]] [] [("x", .nil)] (by decide) (by decide)

/-- C10 counterexample: the claim states that when a `var` initializer
raises a runtime error, no binding for the declared name is overwritten in
any scope. In `var x = (x = 7) + y;` with `x` bound to 5 and `y`
undeclared, the initializer's embedded assignment overwrites `x` to 7
before the lookup of `y` fails, so the declaration errors *and* the
binding of `x` has changed. -/
theorem var_decl_initializer_error_counterexample :
    execute (.varDecl ⟨.identKind, "x", 1⟩
        (some (.binary
          (.assignment ⟨.identKind, "x", 1⟩ (.literal ⟨.numberLit 7, "7", 1⟩))
          ⟨.plus, "+", 1⟩ (.varExpr ⟨.identKind, "y", 1⟩))))
      ⟨[[("x", .number 5)]], [], []⟩
      = (⟨[[("x", .number 7)]], [], []⟩,
         some (.undefinedVariable ⟨.identKind, "y", 1⟩))
    ∧ ([[("x", LoxValue.number 5)]] : EnvironmentList)
        ≠ [[("x", LoxValue.number 7)]] := by
  refine ⟨rfl, fun h => ?_⟩
  norm_num at h

/-- C10 amended: when the initializer of a `var` declaration raises a
runtime error, the error is returned, the bind step is skipped (the state
is exactly as the failed initializer evaluation left it, so no binding for
the declared name is created by the declaration), and the key structure of
every scope is unchanged — though assignments embedded in the initializer
may have overwritten existing bindings before the error. -/
theorem var_decl_error_skips_bind (varName : Token) (init : Expr)
    (st : InterpState) (err : RuntimeError) (envs1 : EnvironmentList)
    (h : evaluate init st.envs = (.error err, envs1)) :
    execute (.varDecl varName (some init)) st
      = ({ st with envs := envs1 }, some err)
    ∧ chainKeys envs1 = chainKeys st.envs := by
  constructor
  · simp only [execute, h]
  · have hk := evaluate_chainKeys init st.envs
    rw [h] at hk
    exact hk

/-- Witness for C10 amended at a concrete input: `var x = y;` with `y`
undeclared errors, binds nothing, and preserves the (empty) key
structure. -/
theorem var_decl_error_skips_bind_witness :
    execute (.varDecl ⟨.identKind, "x", 1⟩
        (some (.varExpr ⟨.identKind, "y", 1⟩))) initState
      = ({ initState with envs := [[]] },
         some (.undefinedVariable ⟨.identKind, "y", 1⟩))
    ∧ chainKeys [[]] = chainKeys initState.envs :=
  var_decl_error_skips_bind ⟨.identKind, "x", 1⟩
    (.varExpr ⟨.identKind, "y", 1⟩) initState
    (.undefinedVariable ⟨.identKind, "y", 1⟩) [[]] rfl


/-- C7 corrected: when a string literal is not closed before end of input,
the scanner consumes the rest of the input and records exactly one
`Unterminated string.` diagnostic anchored at the line on which the input
ended — the start line plus the newlines inside the unterminated string —
not at the line the string started; and scanning continues: every scan
appends the `Eof` token at the end. -/
theorem unterminated_string_diag_at_input_end (s : ScanState)
    (hle : s.current ≤ s.source.length)
    (hq : ∀ c ∈ s.source.drop s.current, c ≠ '"') :
    scanString s =
      { s with current := s.source.length,
               line := s.line + (s.source.drop s.current).count '\n',
               diags := s.diags ++
                 [(s.line + (s.source.drop s.current).count '\n',
                   "Unterminated string.")] }
    ∧ ∀ src : String, ∃ line : Nat,
        ((scan src).tokens).getLast? = some ⟨.eof, "", line⟩ := by
  constructor
  · exact scanStringGo_no_quote _ s (by omega) hle hq
  · intro src
    refine ⟨(scanLoop (src.toList.length + 1) ⟨src.toList, [], 0, 0, 1, []⟩).line,
      ?_⟩
    simp [scan, List.getLast?_concat]

/-- Witness for C7 at a concrete input: the scanner state just after the
opening quote of `"ab\ncd` (line 1); the diagnostic lands on line 2. -/
theorem unterminated_string_diag_at_input_end_witness :
    scanString ⟨['"', 'a', 'b', '\n', 'c', 'd'], [], 0, 1, 1, []⟩
      = ⟨['"', 'a', 'b', '\n', 'c', 'd'], [], 0, 6, 2,
         [(2, "Unterminated string.")]⟩ :=
  ((unterminated_string_diag_at_input_end
      ⟨['"', 'a', 'b', '\n', 'c', 'd'], [], 0, 1, 1, []⟩
      (by decide) (by decide)).1).trans rfl

/-- C5: on `1 +; print "ok";` the scanner reports nothing; the parser
records exactly one syntax diagnostic (`ExpectExpression` at the first
`;`), resynchronizes, and still parses the following `print` statement,
which executes and emits `ok`; and the panic-mode advance loop always
terminates with the statements after the resynchronization point intact:
with enough fuel for the remaining tokens its result is fuel-independent,
its cursor never moves backwards nor past the end of the token list, and
the token list and collected diagnostics are untouched. -/
theorem malformed_statement_recovery :
    (scan "1 +; print \"ok\";").diags = []
    ∧ parseProgram 100 (initParse (scan "1 +; print \"ok\";").tokens)
        = some ([.print (.literal ⟨.stringLit "ok", "\"ok\"", 1⟩)],
            { tokens := (scan "1 +; print \"ok\";").tokens, current := 6,
              diags := [.expectExpression ⟨.semicolon, ";", 1⟩] })
    ∧ (parseProgram 100 (initParse (scan "1 +; print \"ok\";").tokens)).map
        (fun pr => interpret pr.1 initState)
        = some ⟨[[]], [], ["ok"]⟩
    ∧ ∀ (p : ParseState) (fuel : Nat), p.tokens.length - p.current < fuel →
        (synchronizeGo fuel p).tokens = p.tokens
        ∧ (synchronizeGo fuel p).diags = p.diags
        ∧ p.current ≤ (synchronizeGo fuel p).current
        ∧ (synchronizeGo fuel p).current ≤ max p.current p.tokens.length
        ∧ ∀ fuel2, p.tokens.length - p.current < fuel2 →
            synchronizeGo fuel2 p = synchronizeGo fuel p := by
  exact ⟨rfl, rfl, rfl, fun p fuel h => synchronizeGo_spec fuel p h⟩

/-- Witness for C5's recovery-loop clauses at a concrete input: the token
list of `1 +; print "ok";` (7 tokens) with fuel 8 from position 0. -/
theorem malformed_statement_recovery_witness :
    (synchronizeGo 8 (initParse (scan "1 +; print \"ok\";").tokens)).tokens
        = (initParse (scan "1 +; print \"ok\";").tokens).tokens
    ∧ (synchronizeGo 8 (initParse (scan "1 +; print \"ok\";").tokens)).diags
        = (initParse (scan "1 +; print \"ok\";").tokens).diags
    ∧ (initParse (scan "1 +; print \"ok\";").tokens).current
        ≤ (synchronizeGo 8 (initParse (scan "1 +; print \"ok\";").tokens)).current
    ∧ (synchronizeGo 8 (initParse (scan "1 +; print \"ok\";").tokens)).current
        ≤ max (initParse (scan "1 +; print \"ok\";").tokens).current
            (initParse (scan "1 +; print \"ok\";").tokens).tokens.length := by
  have h := malformed_statement_recovery.2.2.2
    (initParse (scan "1 +; print \"ok\";").tokens) 8 (by decide)
  exact ⟨h.1, h.2.1, h.2.2.1, h.2.2.2.1⟩

end Rlox
